import Mathlib

/-!
Verification of the trajectory/timing engine of `Leaflet.SmoothMarkerBouncing`
(`src/helpers.js`), shallowly embedded in Lean 4.

JavaScript numbers are modelled by `ℚ` (all arithmetic performed by the engine
on the claim-relevant paths is exact rational arithmetic: additions,
subtractions, multiplications by integers, divisions and `Math.round`).
`Math.round` is modelled by Mathlib's `round` (`⌊x + 1/2⌋`), which agrees with
the ECMAScript definition of `Math.round` on rationals.  `Math.cos`/`Math.sin`
are implementation-approximated in ECMAScript; they are modelled by an abstract
pair of functions (`Trig`), and all theorems hold for every such pair.

Loops of the source that can diverge (`while (--i)` in `calculateDelays`,
`while (true)` in `calculateLine`) are embedded with an explicit fuel
parameter; `none` means the fuel was exhausted without reaching the loop's
exit condition, and divergence is expressed as "`none` for every fuel".
-/

/- `Rat`'s arithmetic operations are marked `irreducible` in core; restore
normal unfolding locally so that concrete runs of the embedded functions can
be settled by `decide`. -/
attribute [local semireducible] Rat.add Rat.sub Rat.mul Rat.inv

namespace SmoothMarkerBouncing

/-- Model of a JavaScript array of numbers.  A JS array is an object mapping
integer indices to values together with a `length`; writing at an index `j ≥ 0`
beyond the end grows `length` to `j + 1`, while writing at a negative index
stores a property without changing `length` (this happens in
`calculateDelays` when `height = 0`).  Unwritten slots read as a default
(`0` here, standing for JS `undefined`; no claim-relevant path ever reads an
unwritten slot). -/
structure JsArray where
  len : ℕ
  get : ℤ → ℚ

/-- JS assignment `a[j] = v`. -/
def JsArray.set (a : JsArray) (j : ℤ) (v : ℚ) : JsArray :=
  { len := max a.len (if 0 ≤ j then j.toNat + 1 else 0)
    get := fun k => if k = j then v else a.get k }

/-- JS `a.push(v)`: write at index `length`. -/
def JsArray.push (a : JsArray) (v : ℚ) : JsArray :=
  a.set (a.len : ℤ) v

/-- JS `[]`. -/
def JsArray.empty : JsArray :=
  { len := 0, get := fun _ => 0 }

/-- The sequence of values of a JS array, `[a[0], ..., a[length-1]]`. -/
def JsArray.toList (a : JsArray) : List ℚ :=
  (List.range a.len).map fun j : ℕ => a.get (j : ℤ)

theorem JsArray.ext_of {a b : JsArray} (h1 : a.len = b.len)
    (h2 : ∀ j, a.get j = b.get j) : a = b := by
  cases a
  cases b
  simp only [JsArray.mk.injEq]
  exact ⟨h1, funext h2⟩

/-! ### `calculateSteps` (src/helpers.js, lines 252–278)

```js
i = 1;
while (i <= height) { steps.push(i++); }
i = height;
while (i--) { steps.push(i); }
```

The first loop runs exactly `height` iterations (`i = 1 .. height`); it is
embedded by counting down the number of remaining iterations while carrying
the JS loop variable `i`.  The second loop pushes `height-1, ..., 1, 0`. -/

/-- The loop `while (i <= height) steps.push(i++)`, with first argument the
number of remaining iterations (`height + 1 - i`). -/
def stepsUpLoop : ℕ → ℕ → List ℚ
  | 0, _ => []
  | n + 1, i => (i : ℚ) :: stepsUpLoop n (i + 1)

/-- The loop `i = height; while (i--) steps.push(i)`. -/
def stepsDownLoop : ℕ → List ℚ
  | 0 => []
  | i + 1 => (i : ℚ) :: stepsDownLoop i

/-- The computation performed by `calculateSteps` on a cache miss (the code
between the cache lookup and the cache store). -/
def calculateStepsBody (height : ℕ) : List ℚ :=
  stepsUpLoop height 1 ++ stepsDownLoop height

/-- A list of naturals viewed as a list of JS numbers. -/
def ratList (l : List ℕ) : List ℚ :=
  l.map fun k : ℕ => (k : ℚ)

theorem ratList_length (l : List ℕ) : (ratList l).length = l.length := by
  simp [ratList]

theorem stepsUpLoop_eq : ∀ n i : ℕ,
    stepsUpLoop n i = ratList (List.range' i n) := by
  intro n
  induction n with
  | zero => intro i; simp [stepsUpLoop, ratList]
  | succ n ih =>
      intro i
      rw [stepsUpLoop, List.range'_succ, ratList, List.map_cons, ih (i + 1), ratList]

theorem stepsDownLoop_eq : ∀ n : ℕ,
    stepsDownLoop n = ratList (List.range n).reverse := by
  intro n
  induction n with
  | zero => simp [stepsDownLoop, ratList]
  | succ n ih =>
      rw [stepsDownLoop, List.range_succ, List.reverse_append, ih]
      simp [ratList]

theorem calculateStepsBody_eq (height : ℕ) :
    calculateStepsBody height =
      ratList (List.range' 1 height) ++ ratList (List.range height).reverse := by
  rw [calculateStepsBody, stepsUpLoop_eq, stepsDownLoop_eq]

theorem calculateStepsBody_length (height : ℕ) :
    (calculateStepsBody height).length = 2 * height := by
  rw [calculateStepsBody_eq]
  simp [ratList_length]
  omega

/-- C2: for every height ≥ 0, `calculateSteps` computes the ascending run
`[1, ..., height]` followed by the descending run `[height-1, ..., 1, 0]`,
of total length `2 * height`; in particular for height 3 the result is
`[1, 2, 3, 2, 1, 0]`. -/
theorem calculateSteps_spec (height : ℕ) :
    calculateStepsBody height =
      ratList (List.range' 1 height) ++ ratList (List.range height).reverse ∧
    (calculateStepsBody height).length = 2 * height ∧
    calculateStepsBody 3 = [1, 2, 3, 2, 1, 0] := by
  refine ⟨calculateStepsBody_eq height, calculateStepsBody_length height, ?_⟩
  decide

/-! ### `calculateDelays` (src/helpers.js, lines 294–334)

```js
deltas[height] = speed;
deltas[0] = 0;
i = height;
while (--i) { deltas[i] = Math.round(speed / (height - i)); }
i = height;
while (i--) { deltas.push(deltas[i]); }
for (i = 0, l = deltas.length; i < l; i++) { totalDelay += deltas[i]; delays.push(totalDelay); }
```

The first loop pre-decrements `i` and exits only when the decremented value is
exactly `0`; when `height = 0` the decremented value starts at `-1` and never
reaches `0`, so the loop diverges.  It is embedded with fuel. -/

/-- The loop `while (--i) { deltas[i] = Math.round(speed / (height - i)) }`,
with fuel.  `none` means the fuel ran out before the exit condition held. -/
def deltasFillLoop (height : ℕ) (speed : ℚ) : ℕ → ℤ → JsArray → Option JsArray
  | 0, _, _ => none
  | fuel + 1, i, deltas =>
    let i' := i - 1
    if i' = 0 then
      some deltas
    else
      deltasFillLoop height speed fuel i'
        (deltas.set i' ((round (speed / ((height : ℚ) - (i' : ℚ))) : ℤ) : ℚ))

/-- The loop `i = height; while (i--) { deltas.push(deltas[i]) }`:
it pushes `deltas[height-1], ..., deltas[0]`. -/
def deltasMirrorLoop : JsArray → ℕ → JsArray
  | a, 0 => a
  | a, i + 1 => deltasMirrorLoop (a.push (a.get (i : ℤ))) i

/-- The loop `for (i = 0; i < l; i++) { totalDelay += deltas[i]; delays.push(totalDelay) }`
over the materialized value list. -/
def delaysCumsum (totalDelay : ℚ) : List ℚ → List ℚ
  | [] => []
  | d :: rest => (totalDelay + d) :: delaysCumsum (totalDelay + d) rest

/-- The state of `deltas` after `deltas[height] = speed; deltas[0] = 0;`. -/
def deltas0 (height : ℕ) (speed : ℚ) : JsArray :=
  (JsArray.empty.set (height : ℤ) speed).set 0 0

/-- The computation performed by `calculateDelays` on a cache miss.  The fill
loop is given fuel `height`, which suffices exactly when `height ≥ 1`
(`deltasFillLoop_spec`); for `height = 0` the loop diverges for every amount
of fuel (`deltasFillLoop_none_of_nonpos`), and the result is `none`. -/
def calculateDelaysBody (height : ℕ) (speed : ℚ) : Option (List ℚ) :=
  match deltasFillLoop height speed height (height : ℤ) (deltas0 height speed) with
  | none => none
  | some deltas1 => some (delaysCumsum 0 (deltasMirrorLoop deltas1 height).toList)

/-- The outbound delta-time model stated by the spec: `delta[height] = speed`,
`delta[0] = 0`, and `delta[i] = round(speed / (height - i))` for `0 < i < height`. -/
def deltaOut (height : ℕ) (speed : ℚ) (i : ℕ) : ℚ :=
  if i = 0 then 0
  else if i = height then speed
  else ((round (speed / ((height : ℚ) - (i : ℚ))) : ℤ) : ℚ)

/-- The full delta sequence stated by the spec: the outbound deltas
`delta[0..height]` followed by the first `height` outbound deltas in reverse
order (the return leg). -/
def deltaSeqSpec (height : ℕ) (speed : ℚ) : List ℚ :=
  let out := (List.range (height + 1)).map (deltaOut height speed)
  out ++ (out.take height).reverse

/-- The delay table stated by the spec: cumulative sums of `deltaSeqSpec`. -/
def delaysSpec (height : ℕ) (speed : ℚ) : List ℚ :=
  delaysCumsum 0 (deltaSeqSpec height speed)

/-! ### Lemmas about the `calculateDelays` loops -/

/-- When the pre-decremented loop variable starts at `0` or below (that is,
when `height = 0`), `while (--i)` never reaches its exit condition `i == 0`:
the embedded loop returns `none` for every amount of fuel. -/
theorem deltasFillLoop_none_of_nonpos (height : ℕ) (speed : ℚ) :
    ∀ (fuel : ℕ) (i : ℤ) (a : JsArray), i ≤ 0 →
      deltasFillLoop height speed fuel i a = none := by
  intro fuel
  induction fuel with
  | zero => intro i a _; rfl
  | succ fuel ih =>
      intro i a hi
      simp only [deltasFillLoop]
      rw [if_neg (by omega)]
      exact ih _ _ (by omega)

/-- For `1 ≤ i ≤ fuel` and `i` within bounds, the fill loop terminates and
writes `round(speed / (height - j))` at every index `1 ≤ j < i`, leaving the
rest of the array unchanged. -/
theorem deltasFillLoop_spec (height : ℕ) (speed : ℚ) :
    ∀ (fuel : ℕ) (i : ℤ) (a : JsArray), 1 ≤ i → i ≤ (fuel : ℤ) → i ≤ (a.len : ℤ) →
      deltasFillLoop height speed fuel i a =
        some { len := a.len
               get := fun j => if 1 ≤ j ∧ j < i
                 then ((round (speed / ((height : ℚ) - (j : ℚ))) : ℤ) : ℚ)
                 else a.get j } := by
  intro fuel
  induction fuel with
  | zero => intro i a h1 h2 _; exfalso; omega
  | succ fuel ih =>
      intro i a h1 h2 h3
      simp only [deltasFillLoop]
      by_cases hi : i - 1 = 0
      · rw [if_pos hi]
        apply congrArg some
        refine JsArray.ext_of rfl ?_
        intro j
        show a.get j = if 1 ≤ j ∧ j < i then _ else a.get j
        rw [if_neg (by omega)]
      · rw [if_neg hi]
        have hlen : (a.set (i - 1)
            ((round (speed / ((height : ℚ) - ((i - 1 : ℤ) : ℚ))) : ℤ) : ℚ)).len = a.len := by
          simp only [JsArray.set]
          rw [if_pos (by omega)]
          omega
        rw [ih (i - 1) _ (by omega) (by omega) (by rw [hlen]; omega)]
        apply congrArg some
        refine JsArray.ext_of ?_ ?_
        · exact hlen
        intro j
        show (if _ then _ else _) = ite _ _ _
        simp only [JsArray.set]
        by_cases hj : 1 ≤ j ∧ j < i - 1
        · rw [if_pos hj, if_pos (by omega)]
        · rw [if_neg hj]
          by_cases hj2 : j = i - 1
          · rw [if_pos hj2, if_pos (by omega)]
            rw [hj2]
          · rw [if_neg hj2, if_neg (by omega)]

/-- The value stored at index `j` after the fill loop has run on
`deltas0 height speed` starting from `i = height`. -/
def fillGet (height : ℕ) (speed : ℚ) (j : ℤ) : ℚ :=
  if 1 ≤ j ∧ j < (height : ℤ)
    then ((round (speed / ((height : ℚ) - (j : ℚ))) : ℤ) : ℚ)
    else (deltas0 height speed).get j

theorem deltas0_len (height : ℕ) (speed : ℚ) : (deltas0 height speed).len = height + 1 := by
  simp only [deltas0, JsArray.set, JsArray.empty]
  rw [if_pos (by omega), if_pos (by omega)]
  simp

/-- The fill loop of `calculateDelays`, as called by the source
(`fuel = i = height`), for `height ≥ 1`. -/
theorem deltasFillLoop_full (height : ℕ) (speed : ℚ) (hh : 1 ≤ height) :
    deltasFillLoop height speed height (height : ℤ) (deltas0 height speed) =
      some { len := height + 1, get := fillGet height speed } := by
  rw [deltasFillLoop_spec height speed height (height : ℤ) _ (by exact_mod_cast hh)
    (le_refl _) (by rw [deltas0_len]; push_cast; omega)]
  exact congrArg some (JsArray.ext_of (deltas0_len height speed) fun j => rfl)

theorem fillGet_eq_deltaOut (height : ℕ) (speed : ℚ) (hh : 1 ≤ height)
    (k : ℕ) (hk : k ≤ height) :
    fillGet height speed (k : ℤ) = deltaOut height speed k := by
  unfold fillGet deltaOut deltas0 JsArray.set JsArray.empty
  push_cast
  split_ifs <;> first | rfl | omega

theorem JsArray.push_len (a : JsArray) (v : ℚ) : (a.push v).len = a.len + 1 := by
  simp only [JsArray.push, JsArray.set]
  rw [if_pos (by omega)]
  simp

theorem JsArray.push_toList (a : JsArray) (v : ℚ) : (a.push v).toList = a.toList ++ [v] := by
  unfold JsArray.toList
  rw [JsArray.push_len, List.range_succ, List.map_append]
  congr 1
  · apply List.map_congr_left
    intro k hk
    rw [List.mem_range] at hk
    simp only [JsArray.push, JsArray.set]
    rw [if_neg (by omega)]
  · simp [JsArray.push, JsArray.set]

theorem JsArray.push_get_lt (a : JsArray) (v : ℚ) (k : ℕ) (hk : k < a.len) :
    (a.push v).get (k : ℤ) = a.get (k : ℤ) := by
  simp only [JsArray.push, JsArray.set]
  rw [if_neg (by omega)]

/-- `i = n; while (i--) deltas.push(deltas[i])` appends the first `n` values
of the array in reverse order. -/
theorem deltasMirrorLoop_toList : ∀ (n : ℕ) (a : JsArray), n ≤ a.len →
    (deltasMirrorLoop a n).toList =
      a.toList ++ ((List.range n).map fun k : ℕ => a.get (k : ℤ)).reverse := by
  intro n
  induction n with
  | zero => intro a _; simp [deltasMirrorLoop]
  | succ m ih =>
      intro a hm
      rw [deltasMirrorLoop, ih _ (by rw [JsArray.push_len]; omega)]
      rw [JsArray.push_toList]
      have hmap : (List.range m).map (fun k : ℕ => (a.push (a.get (m : ℤ))).get (k : ℤ)) =
          (List.range m).map fun k : ℕ => a.get (k : ℤ) := by
        apply List.map_congr_left
        intro k hk
        rw [List.mem_range] at hk
        exact JsArray.push_get_lt a _ k (by omega)
      rw [hmap, List.range_succ, List.map_append, List.reverse_append, List.append_assoc]
      simp

theorem delaysCumsum_length : ∀ (t : ℚ) (l : List ℚ), (delaysCumsum t l).length = l.length := by
  intro t l
  induction l generalizing t with
  | nil => rfl
  | cons d rest ih => simp [delaysCumsum, ih]

theorem deltaSeqSpec_length (height : ℕ) (speed : ℚ) :
    (deltaSeqSpec height speed).length = 2 * height + 1 := by
  simp [deltaSeqSpec]
  omega

theorem delaysSpec_length (height : ℕ) (speed : ℚ) :
    (delaysSpec height speed).length = 2 * height + 1 := by
  rw [delaysSpec, delaysCumsum_length, deltaSeqSpec_length]

/-- Main bridge: on a cache miss and for `height ≥ 1`, `calculateDelays`
computes exactly the cumulative sums of the spec delta sequence. -/
theorem calculateDelaysBody_eq (height : ℕ) (speed : ℚ) (hh : 1 ≤ height) :
    calculateDelaysBody height speed = some (delaysSpec height speed) := by
  unfold calculateDelaysBody
  rw [deltasFillLoop_full height speed hh]
  refine congrArg some ?_
  rw [deltasMirrorLoop_toList height _ (by simp)]
  unfold delaysSpec
  congr 1
  unfold deltaSeqSpec
  dsimp only
  congr 1
  · show (List.range (height + 1)).map (fun j : ℕ => fillGet height speed (j : ℤ)) = _
    apply List.map_congr_left
    intro k hk
    rw [List.mem_range] at hk
    exact fillGet_eq_deltaOut height speed hh k (by omega)
  · congr 1
    rw [← List.map_take, List.take_range, min_eq_left (by omega)]
    apply List.map_congr_left
    intro k hk
    rw [List.mem_range] at hk
    exact fillGet_eq_deltaOut height speed hh k (by omega)

/-! ### Claims C1, C3, C10 -/

/-- C1 (counterexample): at `height = 3`, `speed = 52` the delay table has 7
entries while the step sequence has 6, so the delay table does not have
`2 * height` entries and does not have the same length as the step
sequence. -/
theorem delays_steps_length_cex :
    (calculateDelaysBody 3 52).map List.length = some 7 ∧
    (calculateStepsBody 3).length = 6 ∧
    ¬((calculateDelaysBody 3 52).map List.length =
        some ((calculateStepsBody 3).length) ∧
      (calculateStepsBody 3).length = 2 * 3) := by
  decide

/-- C1 (amended): for every height ≥ 1 and every speed, the delay table
returned by `calculateDelays` has exactly `2 * height + 1` entries, one more
than the `2 * height` entries of the step sequence returned by
`calculateSteps` for the same height (and for height = 0 `calculateDelays`
does not terminate, see `calculateDelays_termination`). -/
theorem delays_steps_length (height : ℕ) (speed : ℚ) (hh : 1 ≤ height) :
    ∃ l, calculateDelaysBody height speed = some l ∧
      l.length = 2 * height + 1 ∧
      (calculateStepsBody height).length = 2 * height :=
  ⟨delaysSpec height speed, calculateDelaysBody_eq height speed hh,
    delaysSpec_length height speed, calculateStepsBody_length height⟩

theorem delays_steps_length_w :
    1 ≤ 3 ∧ ∃ l, calculateDelaysBody 3 52 = some l ∧
      l.length = 2 * 3 + 1 ∧ (calculateStepsBody 3).length = 2 * 3 :=
  ⟨by decide, delays_steps_length 3 52 (by decide)⟩

/-- C3: for every height ≥ 1 and positive speed, on a cache miss
`calculateDelays` returns the cumulative sums of the delta sequence
`delta[0..height]` (with `delta[height] = speed`, `delta[0] = 0`,
`delta[i] = round(speed / (height - i))` for `0 < i < height`) followed by the
first `height` outbound deltas appended in reverse order (the return leg). -/
theorem calculateDelays_formula (height : ℕ) (speed : ℚ)
    (h1 : 1 ≤ height) (_h2 : 0 < speed) :
    calculateDelaysBody height speed = some (delaysSpec height speed) :=
  calculateDelaysBody_eq height speed h1

theorem calculateDelays_formula_w :
    1 ≤ 3 ∧ (0 : ℚ) < 52 ∧ calculateDelaysBody 3 52 = some (delaysSpec 3 52) :=
  ⟨by decide, by decide, calculateDelays_formula 3 52 (by decide) (by decide)⟩

/-- C10: `calculateDelays` terminates for every height ≥ 1; for height = 0
the delta-fill loop `while (--i)` (starting from `i = 0`) decrements `i`
through negative values and never reaches its exit condition `i == 0`, so it
returns `none` for every amount of fuel and the call does not terminate. -/
theorem calculateDelays_termination :
    (∀ (height : ℕ) (speed : ℚ), 1 ≤ height →
      (calculateDelaysBody height speed).isSome = true) ∧
    (∀ (speed : ℚ) (fuel : ℕ) (i : ℤ) (a : JsArray), i ≤ 0 →
      deltasFillLoop 0 speed fuel i a = none) ∧
    (∀ speed : ℚ, calculateDelaysBody 0 speed = none) := by
  refine ⟨?_, ?_, ?_⟩
  · intro h s hh
    rw [calculateDelaysBody_eq h s hh]
    rfl
  · intro s fuel i a hi
    exact deltasFillLoop_none_of_nonpos 0 s fuel i a hi
  · intro s
    rfl

theorem calculateDelays_termination_w :
    (1 ≤ 1 ∧ (calculateDelaysBody 1 52).isSome = true) ∧
    ((0 : ℤ) ≤ 0 ∧ deltasFillLoop 0 52 5 0 JsArray.empty = none) :=
  ⟨⟨by decide, calculateDelays_termination.1 1 52 (by decide)⟩,
   ⟨by decide, calculateDelays_termination.2.1 52 5 0 JsArray.empty (by decide)⟩⟩

/-! ### The memoization cache (`bouncingMotionsCache`, line 19) and the full
`calculateSteps` / `calculateDelays` functions

The cache is a process-wide map from string keys to arrays of numbers.  It is
modelled as an association list; `if (bouncingMotionsCache[key])` is a
presence check (every stored value is a JS array, and arrays are truthy). -/

/-- The process-wide `bouncingMotionsCache`, as state. -/
def Cache : Type := List (String × List ℚ)

instance : BEq Cache := inferInstanceAs (BEq (List (String × List ℚ)))
instance : DecidableEq Cache := inferInstanceAs (DecidableEq (List (String × List ℚ)))

/-- Look up a key in the cache. -/
def Cache.find (c : Cache) (key : String) : Option (List ℚ) :=
  List.lookup key c

/-- `calculateSteps(height, prefix)` with the cache passed explicitly:
check the cache under key `prefix + height`; on a miss, compute the steps and
store them. -/
def calculateSteps (height : ℕ) (pfx : String) (c : Cache) : List ℚ × Cache :=
  let key := pfx ++ toString height
  match c.find key with
  | some v => (v, c)
  | none =>
    let steps := calculateStepsBody height
    (steps, (key, steps) :: c)

/-- `calculateDelays(height, speed, prefix)` with the cache passed explicitly:
check the cache under key `prefix + height + '_' + speed`; on a miss, compute
the delays (`none` if the computation diverges, i.e. `height = 0`) and store
them. -/
def calculateDelays (height : ℕ) (speed : ℚ) (pfx : String) (c : Cache) :
    Option (List ℚ) × Cache :=
  let key := pfx ++ toString height ++ "_" ++ toString speed
  match c.find key with
  | some v => (some v, c)
  | none =>
    match calculateDelaysBody height speed with
    | none => (none, c)
    | some delays => (some delays, (key, delays) :: c)

theorem Cache.find_cons_self (c : Cache) (key : String) (v : List ℚ) :
    Cache.find ((key, v) :: c) key = some v := by
  simp [Cache.find, List.lookup]

/-- After any call, the cache holds the returned step sequence under the call
key. -/
theorem calculateSteps_lookup (c : Cache) (height : ℕ) (pfx : String) :
    ((calculateSteps height pfx c).2).find (pfx ++ toString height) =
      some (calculateSteps height pfx c).1 := by
  unfold calculateSteps
  cases hc : c.find (pfx ++ toString height) with
  | some v => simp only [hc]
  | none => simp only [hc]; exact Cache.find_cons_self c _ _

theorem calculateSteps_twice (c : Cache) (height : ℕ) (pfx : String) :
    calculateSteps height pfx (calculateSteps height pfx c).2 =
      ((calculateSteps height pfx c).1, (calculateSteps height pfx c).2) := by
  have h := calculateSteps_lookup c height pfx
  generalize calculateSteps height pfx c = p at h ⊢
  rw [calculateSteps]
  rw [h]

/-- After any call with `height ≥ 1`, the delays call returns a value that is
exactly the entry stored in the resulting cache under the call key. -/
theorem calculateDelays_lookup (c : Cache) (height : ℕ) (speed : ℚ) (pfx : String)
    (hh : 1 ≤ height) :
    ∃ v, (calculateDelays height speed pfx c).1 = some v ∧
      ((calculateDelays height speed pfx c).2).find
        (pfx ++ toString height ++ "_" ++ toString speed) = some v := by
  unfold calculateDelays
  cases hc : c.find (pfx ++ toString height ++ "_" ++ toString speed) with
  | some v => simp only [hc]; exact ⟨v, rfl, rfl⟩
  | none =>
      simp only [hc, calculateDelaysBody_eq height speed hh]
      exact ⟨delaysSpec height speed, rfl, Cache.find_cons_self c _ _⟩

theorem calculateDelays_twice (c : Cache) (height : ℕ) (speed : ℚ) (pfx : String)
    (hh : 1 ≤ height) :
    calculateDelays height speed pfx (calculateDelays height speed pfx c).2 =
      ((calculateDelays height speed pfx c).1, (calculateDelays height speed pfx c).2) := by
  obtain ⟨v, h1, h2⟩ := calculateDelays_lookup c height speed pfx hh
  generalize calculateDelays height speed pfx c = p at h1 h2 ⊢
  rw [calculateDelays]
  rw [h2, h1]

/-- The property claimed by C4, at one cache state and one parameter tuple:
repeating a `calculateSteps` call returns the same value and leaves the cache
unchanged, and the returned value is precisely the sequence stored in the
cache (the embedding's rendering of "the same cached sequence instance");
likewise for `calculateDelays`. -/
def CacheIdem (c : Cache) (height : ℕ) (pfx : String) (speed : ℚ) : Prop :=
  (calculateSteps height pfx (calculateSteps height pfx c).2).1 =
    (calculateSteps height pfx c).1 ∧
  (calculateSteps height pfx (calculateSteps height pfx c).2).2 =
    (calculateSteps height pfx c).2 ∧
  ((calculateSteps height pfx c).2).find (pfx ++ toString height) =
    some (calculateSteps height pfx c).1 ∧
  (calculateDelays height speed pfx (calculateDelays height speed pfx c).2).1 =
    (calculateDelays height speed pfx c).1 ∧
  (calculateDelays height speed pfx (calculateDelays height speed pfx c).2).2 =
    (calculateDelays height speed pfx c).2 ∧
  ((calculateDelays height speed pfx c).2).find
      (pfx ++ toString height ++ "_" ++ toString speed) =
    (calculateDelays height speed pfx c).1

/-- C4: calling `calculateSteps` twice with identical `(height, prefix)`, or
`calculateDelays` twice with identical `(height, speed, prefix)`, from any
cache state, returns the same result both times; the second call performs no
computation and no cache write, and the returned value is the cached
sequence. -/
theorem cache_idempotent (c : Cache) (height : ℕ) (pfx : String) (speed : ℚ)
    (hh : 1 ≤ height) : CacheIdem c height pfx speed := by
  obtain ⟨v, h1, h2⟩ := calculateDelays_lookup c height speed pfx hh
  refine ⟨?_, ?_, calculateSteps_lookup c height pfx, ?_, ?_, h2.trans h1.symm⟩
  · rw [calculateSteps_twice]
  · rw [calculateSteps_twice]
  · rw [calculateDelays_twice c height speed pfx hh]
  · rw [calculateDelays_twice c height speed pfx hh]

theorem cache_idempotent_w : 1 ≤ 3 ∧ CacheIdem [] 3 ("m_") 52 :=
  ⟨by decide, cache_idempotent [] 3 ("m_") 52 (by decide)⟩

/-! ### `calculateLine` (src/helpers.js, lines 68–103) and
`calculateShadowMovePoints` (lines 139–151)

```js
let xD = Math.round(x + Math.cos(angle) * (length * 2)),
    yD = Math.round(y + Math.sin(angle) * (length * 2)),
    dx = Math.abs(xD - x), sx = x < xD ? 1 : -1,
    dy = Math.abs(yD - y), sy = y < yD ? 1 : -1,
    err = (dx > dy ? dx : -dy) / 2, e2, p = [], i = 0;
while (true) {
    p.push([x, y]);
    i++;
    if (i === length) break;
    e2 = err;
    if (e2 > -dx) { err -= dy; x += sx; }
    if (e2 < dy) { err += dx; y += sy; }
}
```

ECMAScript defines `Math.cos`/`Math.sin` only as implementation-dependent
approximations, so they are modelled as an abstract pair of functions; every
theorem below holds for an arbitrary pair.  The `while (true)` loop exits only
through `i === length`; `i` counts `1, 2, 3, ...`, so for `length ≤ 0` the
exit is never reached and the loop diverges (embedded as fuel exhaustion). -/

/-- Abstract model of the host's `Math.cos` / `Math.sin`. -/
structure Trig where
  cos : ℚ → ℚ
  sin : ℚ → ℚ

/-- The `while (true)` loop of `calculateLine`, with fuel.  Each iteration
pushes the current point, increments `i`, exits when `i === length`, and
otherwise performs the Bresenham error-accumulation update. -/
def lineLoop (dx dy sx sy : ℚ) (length : ℤ) :
    ℕ → ℤ → ℚ → ℚ → ℚ → Option (List (ℚ × ℚ))
  | 0, _, _, _, _ => none
  | fuel + 1, i, x, y, err =>
    let i' := i + 1
    if i' = length then
      some [(x, y)]
    else
      let e2 := err
      let err1 := if e2 > -dx then err - dy else err
      let x1 := if e2 > -dx then x + sx else x
      let err2 := if e2 < dy then err1 + dx else err1
      let y1 := if e2 < dy then y + sy else y
      match lineLoop dx dy sx sy length fuel i' x1 y1 err2 with
      | none => none
      | some rest => some ((x, y) :: rest)

/-- `calculateLine(x, y, angle, length)`.  The loop is given fuel
`length.toNat`, which suffices exactly when `length ≥ 1`
(`lineLoop_spec`); for `length ≤ 0` the loop never reaches its exit condition
for any amount of fuel (`lineLoop_none_of_nonpos`) and the result is `none`. -/
def calculateLine (T : Trig) (x y angle : ℚ) (length : ℤ) : Option (List (ℚ × ℚ)) :=
  let xD : ℤ := round (x + T.cos angle * ((length : ℚ) * 2))
  let yD : ℤ := round (y + T.sin angle * ((length : ℚ) * 2))
  let dx : ℚ := |(xD : ℚ) - x|
  let sx : ℚ := if x < (xD : ℚ) then 1 else -1
  let dy : ℚ := |(yD : ℚ) - y|
  let sy : ℚ := if y < (yD : ℚ) then 1 else -1
  let err : ℚ := (if dx > dy then dx else -dy) / 2
  lineLoop dx dy sx sy length length.toNat 0 x y err

/-- `calculateShadowMovePoints(x, y, bounceHeight, angle)`.  `angle != null`
is a JS loose comparison: only `null`/`undefined` (modelled by `none`) take
the fixed-position branch; the numeric angle `0` is `some 0` and takes the
`calculateLine` branch.  The fixed-position loop
`for (i = 0; i <= bounceHeight; i++) p[i] = [x, y]` fills
`bounceHeight + 1` copies of the origin. -/
def calculateShadowMovePoints (T : Trig) (x y : ℚ) (bounceHeight : ℕ)
    (angle : Option ℚ) : Option (List (ℚ × ℚ)) :=
  match angle with
  | some a => calculateLine T x y a ((bounceHeight : ℤ) + 1)
  | none => some (List.replicate (bounceHeight + 1) (x, y))

/-- For `length ≤ 0` the loop never exits: `i` starts at `0` and only
increases, so `i + 1 = length` is unreachable. -/
theorem lineLoop_none_of_nonpos (dx dy sx sy : ℚ) (length : ℤ) (hl : length ≤ 0) :
    ∀ (fuel : ℕ) (i : ℤ) (x y err : ℚ), 0 ≤ i →
      lineLoop dx dy sx sy length fuel i x y err = none := by
  intro fuel
  induction fuel with
  | zero => intro i x y err _; rfl
  | succ fuel ih =>
      intro i x y err hi
      simp only [lineLoop]
      rw [if_neg (by omega)]
      rw [ih (i + 1) _ _ _ (by omega)]

/-- For `1 ≤ fuel` and `i + fuel = length`, the loop emits exactly `fuel`
points, the first being the current position. -/
theorem lineLoop_spec (dx dy sx sy : ℚ) (length : ℤ) :
    ∀ (fuel : ℕ) (i : ℤ) (x y err : ℚ), 1 ≤ fuel → i + (fuel : ℤ) = length →
      ∃ l, lineLoop dx dy sx sy length fuel i x y err = some l ∧
        l.length = fuel ∧ l.head? = some (x, y) := by
  intro fuel
  induction fuel with
  | zero => intro i x y err h1 _; exfalso; omega
  | succ fuel ih =>
      intro i x y err _ h2
      simp only [lineLoop]
      by_cases hi : i + 1 = length
      · rw [if_pos hi]
        exact ⟨[(x, y)], rfl, by simp; omega, rfl⟩
      · rw [if_neg hi]
        obtain ⟨rest, hrest, hlen, hhead⟩ :=
          ih (i + 1) (if err > -dx then x + sx else x) (if err < dy then y + sy else y)
            (if err < dy then (if err > -dx then err - dy else err) + dx
             else if err > -dx then err - dy else err)
            (by omega) (by omega)
        rw [hrest]
        exact ⟨(x, y) :: rest, rfl, by simp [hlen], rfl⟩

/-- C6: for every trig model, every origin, every non-sentinel angle and every
integer length ≥ 1, `calculateLine` returns exactly `length` ordered points,
the first being the origin `(x, y)`. -/
theorem calculateLine_spec (T : Trig) (x y angle : ℚ) (length : ℤ)
    (hl : 1 ≤ length) :
    ∃ l, calculateLine T x y angle length = some l ∧
      l.length = length.toNat ∧ l.head? = some (x, y) := by
  unfold calculateLine
  exact lineLoop_spec _ _ _ _ length length.toNat 0 x y _ (by omega) (by omega)

theorem calculateLine_spec_w :
    (1 : ℤ) ≤ 5 ∧ ∃ l, calculateLine ⟨fun _ => 1, fun _ => 0⟩ 0 0 0 5 = some l ∧
      l.length = (5 : ℤ).toNat ∧ l.head? = some (0, 0) :=
  ⟨by decide, calculateLine_spec ⟨fun _ => 1, fun _ => 0⟩ 0 0 0 5 (by decide)⟩

/-- C5: the `null` sentinel (and only it) takes the fixed-position branch,
producing `bounceHeight + 1` copies of the origin; the numeric angle `0`
takes the `calculateLine` branch; in particular
`shadowMovePoints(10, 20, 3, null)` is four copies of `(10, 20)`. -/
theorem calculateShadowMovePoints_spec (T : Trig) (x y : ℚ) (bounceHeight : ℕ) :
    calculateShadowMovePoints T x y bounceHeight none =
      some (List.replicate (bounceHeight + 1) (x, y)) ∧
    calculateShadowMovePoints T x y bounceHeight (some 0) =
      calculateLine T x y 0 ((bounceHeight : ℤ) + 1) ∧
    calculateShadowMovePoints T 10 20 3 none =
      some [(10, 20), (10, 20), (10, 20), (10, 20)] :=
  ⟨rfl, rfl, rfl⟩

/-- C9: for `length ≤ 0` the source does not reject the call: the
`while (true)` loop of `calculateLine` never reaches its exit condition
`i === length` (it returns `none` for every amount of fuel), so the call
loops indefinitely instead of raising an `InvalidLength` error. -/
theorem calculateLine_no_reject :
    (∀ (dx dy sx sy : ℚ) (length : ℤ), length ≤ 0 →
      ∀ (fuel : ℕ) (i : ℤ) (x y err : ℚ), 0 ≤ i →
        lineLoop dx dy sx sy length fuel i x y err = none) ∧
    (∀ (T : Trig) (x y angle : ℚ) (length : ℤ), length ≤ 0 →
      calculateLine T x y angle length = none) := by
  constructor
  · exact fun dx dy sx sy length hl => lineLoop_none_of_nonpos dx dy sx sy length hl
  · intro T x y angle length hl
    unfold calculateLine
    exact lineLoop_none_of_nonpos _ _ _ _ length hl length.toNat 0 x y _ (by omega)

theorem calculateLine_no_reject_w :
    ((0 : ℤ) ≤ 0 ∧ lineLoop 1 1 1 1 0 7 0 0 0 0 = none) ∧
    ((0 : ℤ) ≤ 0 ∧ calculateLine ⟨fun _ => 1, fun _ => 0⟩ 0 0 0 0 = none) :=
  ⟨⟨by decide, calculateLine_no_reject.1 1 1 1 1 0 (by decide) 7 0 0 0 0 (by decide)⟩,
   ⟨by decide, calculateLine_no_reject.2 ⟨fun _ => 1, fun _ => 0⟩ 0 0 0 0 (by decide)⟩⟩

/-! ### `calculateIconResizeTransforms` (src/helpers.js, lines 226–239)

```js
let t = [], dH = contractHeight + 1;
while (dH--) {
    t[dH] = ' matrix3d(1,0,0,0,0,' + ((height - dH) / height) + ',0,0,0,0,1,0,' + x + ','
        + (y + dH) + ',0,1) ';
}
```

A transform string is modelled by the 16 numeric entries it carries (the
column-major 4×4 matrix written inside `matrix3d(...)`). -/

/-- Denotation of the fill idiom `let t = [], i = n; while (i--) t[i] = g(i)`:
the loop assigns every index `n-1, ..., 1, 0` exactly once, producing the
array `[g(0), ..., g(n-1)]`. -/
def fillArrayByIndex {α : Type} (n : ℕ) (g : ℕ → α) : List α :=
  (List.range n).map g

/-- The 16 entries of
`matrix3d(1,0,0,0,0,SY,0,0,0,0,1,0,TX,TY,0,1)`: a y-axis scale by `SY`
composed with a translation to `(TX, TY)`. -/
def matrix3dScaleYTranslate (scaleY tx ty : ℚ) : List ℚ :=
  [1, 0, 0, 0, 0, scaleY, 0, 0, 0, 0, 1, 0, tx, ty, 0, 1]

/-- `calculateIconResizeTransforms(x, y, height, contractHeight)`. -/
def calculateIconResizeTransforms (x y height : ℚ) (contractHeight : ℕ) :
    List (List ℚ) :=
  fillArrayByIndex (contractHeight + 1) fun dH =>
    matrix3dScaleYTranslate ((height - (dH : ℚ)) / height) x (y + (dH : ℚ))

/-- C8: for non-zero original height, `calculateIconResizeTransforms` returns
`contractHeight + 1` transforms; entry `i` scales the y-axis by
`(height - i) / height` and translates to `(x, y + i)`; for
`height = 10, contractHeight = 2` the scale factors are `1, 9/10, 8/10` and
the y-translations are `y, y + 1, y + 2`. -/
theorem calculateIconResizeTransforms_spec (x y height : ℚ) (contractHeight : ℕ)
    (_hh : height ≠ 0) :
    (calculateIconResizeTransforms x y height contractHeight).length =
      contractHeight + 1 ∧
    (∀ i : ℕ, i < contractHeight + 1 →
      (calculateIconResizeTransforms x y height contractHeight)[i]? =
        some (matrix3dScaleYTranslate ((height - (i : ℚ)) / height) x (y + (i : ℚ)))) ∧
    calculateIconResizeTransforms x y 10 2 =
      [matrix3dScaleYTranslate 1 x y,
       matrix3dScaleYTranslate (9 / 10) x (y + 1),
       matrix3dScaleYTranslate (8 / 10) x (y + 2)] := by
  refine ⟨?_, ?_, ?_⟩
  · simp [calculateIconResizeTransforms, fillArrayByIndex]
  · intro i hi
    simp [calculateIconResizeTransforms, fillArrayByIndex, hi]
  · simp only [calculateIconResizeTransforms, fillArrayByIndex, List.range_succ,
      List.range_zero, List.map_append, List.map_cons, List.map_nil, List.nil_append,
      List.cons_append, List.singleton_append]
    norm_num [matrix3dScaleYTranslate]

theorem calculateIconResizeTransforms_spec_w :
    (10 : ℚ) ≠ 0 ∧
    ((calculateIconResizeTransforms 0 0 10 2).length = 2 + 1 ∧
    (∀ i : ℕ, i < 2 + 1 →
      (calculateIconResizeTransforms 0 0 10 2)[i]? =
        some (matrix3dScaleYTranslate ((10 - (i : ℚ)) / 10) 0 (0 + (i : ℚ)))) ∧
    calculateIconResizeTransforms 0 0 10 2 =
      [matrix3dScaleYTranslate 1 0 0,
       matrix3dScaleYTranslate (9 / 10) 0 (0 + 1),
       matrix3dScaleYTranslate (8 / 10) 0 (0 + 2)]) :=
  ⟨by norm_num, calculateIconResizeTransforms_spec 0 0 10 2 (by norm_num)⟩

/-! ### `calculateTimeline` (src/helpers.js, lines 350–368)

Only the fields read or written by `calculateTimeline` are modelled.
JS mutation of `marker._bouncingMotion` is rendered as a functional update;
"returns the same marker reference, mutated in place" becomes: the returned
marker agrees with the input marker on every field the function does not
write. -/

/-- `marker._bouncingOptions`. -/
structure BouncingOptions where
  bounceHeight : ℕ
  bounceSpeed : ℚ
  elastic : Bool
  contractHeight : ℕ
  contractSpeed : ℚ

/-- `marker._bouncingMotion` (the four timeline fields). -/
structure BouncingMotion where
  moveSteps : List ℚ
  moveDelays : List ℚ
  resizeSteps : List ℚ
  resizeDelays : List ℚ

/-- A marker, restricted to the state touched by `calculateTimeline`. -/
structure Marker where
  bouncingOptions : BouncingOptions
  bouncingMotion : BouncingMotion

/-- `calculateTimeline(marker)`, threading the cache.  The first component is
`none` when one of the `calculateDelays` calls diverges (height `0` on a
cache miss); in the source the call would hang at that point and never
return. -/
def calculateTimeline (m : Marker) (c : Cache) : Option Marker × Cache :=
  let o := m.bouncingOptions
  let s1 := calculateSteps o.bounceHeight ("moveSteps_") c
  let d1 := calculateDelays o.bounceHeight o.bounceSpeed ("moveDelays_") s1.2
  match d1.1 with
  | none => (none, d1.2)
  | some moveDelays =>
    if o.elastic then
      let s2 := calculateSteps o.contractHeight ("resizeSteps_") d1.2
      let d2 := calculateDelays o.contractHeight o.contractSpeed ("resizeDelays_") s2.2
      match d2.1 with
      | none => (none, d2.2)
      | some resizeDelays =>
        (some { m with bouncingMotion :=
          { m.bouncingMotion with
              moveSteps := s1.1, moveDelays := moveDelays,
              resizeSteps := s2.1, resizeDelays := resizeDelays } }, d2.2)
    else
      (some { m with bouncingMotion :=
        { m.bouncingMotion with
            moveSteps := s1.1, moveDelays := moveDelays } }, d1.2)

/-- The property claimed by C7 at one marker and one cache state:
`calculateTimeline` returns a marker; the returned marker is the input marker
with `moveSteps`/`moveDelays` always overwritten with the values of the
corresponding `calculateSteps`/`calculateDelays` calls; the resize fields are
overwritten (with the values of the resize calls) exactly when `elastic` is
true and left unchanged when it is false; no other field changes. -/
def TimelineWrites (m : Marker) (c : Cache) : Prop :=
  let o := m.bouncingOptions
  let s1 := calculateSteps o.bounceHeight ("moveSteps_") c
  let d1 := calculateDelays o.bounceHeight o.bounceSpeed ("moveDelays_") s1.2
  let s2 := calculateSteps o.contractHeight ("resizeSteps_") d1.2
  let d2 := calculateDelays o.contractHeight o.contractSpeed ("resizeDelays_") s2.2
  ∃ m', (calculateTimeline m c).1 = some m' ∧
    m'.bouncingOptions = m.bouncingOptions ∧
    m'.bouncingMotion.moveSteps = s1.1 ∧
    some m'.bouncingMotion.moveDelays = d1.1 ∧
    (o.elastic = true → m'.bouncingMotion.resizeSteps = s2.1 ∧
      some m'.bouncingMotion.resizeDelays = d2.1) ∧
    (o.elastic = false → m'.bouncingMotion.resizeSteps = m.bouncingMotion.resizeSteps ∧
      m'.bouncingMotion.resizeDelays = m.bouncingMotion.resizeDelays)

/-- C7 (amended): provided `bounceHeight ≥ 1` (and `contractHeight ≥ 1` when
`elastic` is set), `calculateTimeline` returns the input marker updated in
exactly the fields the claim describes: `moveSteps`/`moveDelays` always,
`resizeSteps`/`resizeDelays` only when `elastic` is true. -/
theorem calculateTimeline_spec (m : Marker) (c : Cache)
    (h1 : 1 ≤ m.bouncingOptions.bounceHeight)
    (h2 : m.bouncingOptions.elastic = true → 1 ≤ m.bouncingOptions.contractHeight) :
    TimelineWrites m c := by
  unfold TimelineWrites calculateTimeline
  obtain ⟨mv, hmv, _⟩ := calculateDelays_lookup
    (calculateSteps m.bouncingOptions.bounceHeight ("moveSteps_") c).2
    m.bouncingOptions.bounceHeight m.bouncingOptions.bounceSpeed ("moveDelays_") h1
  dsimp only
  rw [hmv]
  dsimp only
  by_cases he : m.bouncingOptions.elastic = true
  · rw [if_pos he]
    obtain ⟨rv, hrv, _⟩ := calculateDelays_lookup
      (calculateSteps m.bouncingOptions.contractHeight ("resizeSteps_")
        (calculateDelays m.bouncingOptions.bounceHeight m.bouncingOptions.bounceSpeed
          ("moveDelays_")
          (calculateSteps m.bouncingOptions.bounceHeight ("moveSteps_") c).2).2).2
      m.bouncingOptions.contractHeight m.bouncingOptions.contractSpeed
      ("resizeDelays_") (h2 he)
    rw [hrv]
    dsimp only
    refine ⟨_, rfl, rfl, rfl, rfl, fun _ => ⟨rfl, rfl⟩, fun hf => ?_⟩
    rw [he] at hf
    cases hf
  · rw [if_neg he]
    dsimp only
    exact ⟨_, rfl, rfl, rfl, rfl, fun ht => absurd ht he, fun _ => ⟨rfl, rfl⟩⟩

/-- A concrete elastic marker used to witness `calculateTimeline_spec`. -/
def markerEx : Marker :=
  { bouncingOptions :=
      { bounceHeight := 3, bounceSpeed := 52, elastic := true,
        contractHeight := 2, contractSpeed := 52 }
    bouncingMotion :=
      { moveSteps := [], moveDelays := [], resizeSteps := [], resizeDelays := [] } }

theorem calculateTimeline_spec_w :
    1 ≤ markerEx.bouncingOptions.bounceHeight ∧
    (markerEx.bouncingOptions.elastic = true →
      1 ≤ markerEx.bouncingOptions.contractHeight) ∧
    TimelineWrites markerEx [] :=
  ⟨by decide, by decide, calculateTimeline_spec markerEx [] (by decide) (by decide)⟩

/-- A marker with `bounceHeight = 0`: its `calculateDelays` call diverges, so
`calculateTimeline` never returns. -/
def markerZero : Marker :=
  { bouncingOptions :=
      { bounceHeight := 0, bounceSpeed := 52, elastic := false,
        contractHeight := 0, contractSpeed := 52 }
    bouncingMotion :=
      { moveSteps := [], moveDelays := [], resizeSteps := [], resizeDelays := [] } }

/-- C7 (counterexample): at `bounceHeight = 0` the claim fails:
`calculateTimeline` does not return an updated marker (the `calculateDelays`
call never terminates). -/
theorem calculateTimeline_cex : ¬ TimelineWrites markerZero [] := by
  intro h
  obtain ⟨m', hm', _⟩ := h
  rw [show (calculateTimeline markerZero []).1 = none from rfl] at hm'
  exact Option.noConfusion hm'

end SmoothMarkerBouncing
